import Mathlib

/-!
Verification of `tools/preprocess_data.py` (gpt-neox data preprocessing).

This file gives a shallow embedding of the document-preprocessing pipeline:
the text normalizer `sanitize`, the per-document `Encoder.encode`, the
document source `yield_from_files` (with its inner `read` and `yielder`),
the flow-controlling semaphore, and the driver loop of `main` that routes
encoded results to dataset builders and finalizes them.

Modelling conventions:
- Python strings are Lean `String`s; `len(text)` is `String.length`
  (Python's `len` counts code points, as does `String.length`).
- Python exceptions (IndexError on `doc_ids[-1]` of an empty list, KeyError
  on a missing dict key, OSError from `open`) are `Except.error`.
- External collaborators are parameters: the tokenizer is a structure with
  a `tokenize` function and an `eod` id; `ftfy.fix_text` is a function
  parameter.
- The input directory is modelled as the post-shuffle list of files that
  `os.walk` + `random.shuffle` produce; each file is `Option String`:
  `none` for a file whose `open` raises OSError, `some c` for a readable
  file whose decoded content (with `errors="ignore"`, which drops
  undecodable bytes and never raises) is `c`.
-/

/-- The three sentinel characters of `sanitize`:
`SPACE_TOKEN = '▁'` (U+2581), `TAB_TOKEN = chr(1)`, `NEWLINE_TOKEN = chr(2)`. -/
def SPACE_TOKEN : Char := '▁'

def TAB_TOKEN : Char := Char.ofNat 1

def NEWLINE_TOKEN : Char := Char.ofNat 2

/-- `str.replace(old, new)` for single-character `old`/`new`, on the
character list: every occurrence of `old` is replaced by `new`. -/
def replaceChar (old new : Char) : List Char → List Char :=
  List.map (fun c => if c = old then new else c)

/-- `sanitize` from `tools/preprocess_data.py`: three sequential
single-character replacements, newline first, then tab, then space. -/
def sanitize (text : String) : String :=
  ⟨replaceChar ' ' SPACE_TOKEN
    (replaceChar '\t' TAB_TOKEN
      (replaceChar '\n' NEWLINE_TOKEN text.data))⟩

/-- Spec-side per-character description of normalization (from the claim:
"each occurrence of those three characters is replaced by a distinct
sentinel character, and all other characters are unchanged"); to be
compared with the source-side `sanitize`. -/
def sanitizeCharSpec (c : Char) : Char :=
  if c = '\n' then NEWLINE_TOKEN
  else if c = '\t' then TAB_TOKEN
  else if c = ' ' then SPACE_TOKEN
  else c

/-- The external tokenizer collaborator (`megatron.tokenizer`): a total
tokenization function and the end-of-document token id. -/
structure Tokenizer where
  tokenize : String → List Nat
  eod : Nat

/-- The slice of the argparse configuration that `encode` and the driver
read: `--json-keys`, `--append-eod`, `--ftfy`. -/
structure Config where
  json_keys : List String
  append_eod : Bool
  ftfy : Bool

/-- One key's body of `Encoder.encode`:

    doc_ids = []
    text_ids = Encoder.tokenizer.tokenize(text)
    if len(text_ids) > 0:
        doc_ids.append(text_ids)
    if self.args.append_eod:
        doc_ids[-1].append(Encoder.tokenizer.eod)

`doc_ids[-1]` on an empty list raises IndexError, hence `Except`.
`doc_ids[-1].append(x)` mutates the last element in place, which on the
immutable embedding is replacing the last element by itself extended
with `x`. -/
def encodeKey (tok : Tokenizer) (append_eod : Bool) (text : String) :
    Except String (List (List Nat)) :=
  let text_ids := tok.tokenize text
  let doc_ids : List (List Nat) := if text_ids.length > 0 then [text_ids] else []
  if append_eod then
    match doc_ids.getLast? with
    | none => .error "IndexError: list index out of range"
    | some last => .ok (doc_ids.dropLast ++ [last ++ [tok.eod]])
  else
    .ok doc_ids

/-- The `for key in self.args.json_keys` loop of `Encoder.encode`: builds
the `ids` dict in `json_keys` order (Python dicts preserve insertion
order, so the dict is an association list built left to right). -/
def encodeIds (tok : Tokenizer) (append_eod : Bool) :
    List String → String → Except String (List (String × List (List Nat)))
  | [], _ => .ok []
  | key :: rest, text => do
    let doc_ids ← encodeKey tok append_eod text
    let tail ← encodeIds tok append_eod rest text
    pure ((key, doc_ids) :: tail)

/-- `Encoder.encode(self, text)`: optionally repairs the text with
`ftfy.fix_text` (the external `fix_text` parameter), builds the per-key
token-sequence lists, and returns them together with `len(text)` — `text`
here being the local variable, i.e. the repaired text when `--ftfy` is
set. -/
def encode (cfg : Config) (fix_text : String → String) (tok : Tokenizer)
    (text : String) : Except String (List (String × List (List Nat)) × Nat) := do
  let text := if cfg.ftfy then fix_text text else text
  let ids ← encodeIds tok cfg.append_eod cfg.json_keys text
  pure (ids, text.length)

/-! ## Document source: `read`, `yielder`, `yield_from_files`

The generator is modelled by the trace of externally visible events it
produces when fully drained: semaphore acquisitions and yielded documents.
An exception escaping the generator is `Except.error` for the whole trace
(nothing after the raising file is reached). -/

/-- An externally visible action of the document source: a semaphore
`acquire` or a yielded document. -/
inductive SourceEvent where
  | acquire : SourceEvent
  | yieldDoc : String → SourceEvent
deriving DecidableEq

/-- The inner `read(fname)` of `yield_from_files`: `open` either raises
OSError (file `none`) or succeeds; decoding with `errors="ignore"` never
raises (undecodable bytes are silently dropped, so the file is modelled by
its decoded content), and the content is normalized with `sanitize`. -/
def readDoc (file : Option String) : Except String String :=
  match file with
  | none => .error "OSError"
  | some content => .ok (sanitize content)

/-- The inner `yielder(fname, semaphore)`: reads the file, and only if the
resulting document is truthy (a non-empty string) acquires one permit and
yields the document. -/
def yielder (file : Option String) : Except String (List SourceEvent) := do
  let f ← readDoc file
  if f ≠ "" then
    pure [SourceEvent.acquire, SourceEvent.yieldDoc f]
  else
    pure []

/-- `yield_from_files(dir, semaphore)` after directory walking and
shuffling: `files` is the post-shuffle file list, and the trace is the
concatenation of each file's `yielder` events. There is no exception
handler in the source, so an error from any `yielder` aborts the whole
enumeration. -/
def yield_from_files (files : List (Option String)) :
    Except String (List SourceEvent) :=
  match files with
  | [] => .ok []
  | file :: rest => do
    let evs ← yielder file
    let evsRest ← yield_from_files rest
    pure (evs ++ evsRest)

/-! ## Flow controller: the `threading.Semaphore(10000 + args.workers)`

State machine of the permit pool. `acquire` (performed by the document
source before yielding, line 143) blocks unless a permit is available;
`release` (performed by the driver once per consumed result, line 192)
happens only while at least one document is in flight, because the driver
releases exactly once per consumed result and every consumed result
corresponds to exactly one previously acquired document. -/

/-- The fixed base buffer of the semaphore: `Semaphore(10000 + args.workers)`. -/
def BASE_BUFFER : Nat := 10000

/-- Permit-pool state: available permits and documents in flight
(acquired by the source, not yet released by the driver). -/
structure FlowState where
  permits : Nat
  inflight : Nat
deriving DecidableEq

/-- Initial state for worker count `W`: all `BASE_BUFFER + W` permits
available, nothing in flight. -/
def initFlow (W : Nat) : FlowState :=
  ⟨BASE_BUFFER + W, 0⟩

/-- One transition of the permit pool. -/
inductive FlowStep : FlowState → FlowState → Prop where
  | acquire (p i : Nat) (h : 0 < p) : FlowStep ⟨p, i⟩ ⟨p - 1, i + 1⟩
  | release (p i : Nat) (h : 0 < i) : FlowStep ⟨p, i⟩ ⟨p + 1, i - 1⟩

/-- States reachable from the initial state for worker count `W`. -/
inductive FlowReachable (W : Nat) : FlowState → Prop where
  | init : FlowReachable W (initFlow W)
  | step {s s' : FlowState} :
      FlowReachable W s → FlowStep s s' → FlowReachable W s'

/-! ## Dataset builders and the driver loop of `main` -/

/-- The relevant observable state of one `indexed_dataset` builder.

Modelled from the spec: `megatron.data.indexed_dataset.make_builder` and
the builder operations `add_item`, `end_document`, `finalize` are not part
of the analysed source; per the spec (§4.4) `add_item` appends one token
sequence, `end_document` records a document boundary, and `finalize` seals
the builder, so the model records the appended sequences and the call
counts of `end_document` and `finalize`. -/
structure Builder where
  items : List (List Nat)
  endDocCalls : Nat
  finalizeCalls : Nat
deriving DecidableEq

/-- A freshly made builder. -/
def Builder.empty : Builder :=
  ⟨[], 0, 0⟩

/-- Python dict lookup `d[key]`; `none` models a KeyError. -/
def dictGet {β : Type} (key : String) : List (String × β) → Option β
  | [] => none
  | (k, v) :: rest => if k = key then some v else dictGet key rest

/-- In-place mutation of the object stored at `key` (Python objects are
references, so `builders[key].add_item(...)` updates the stored builder). -/
def dictSet {β : Type} (key : String) (v : β) :
    List (String × β) → List (String × β)
  | [] => []
  | (k, v0) :: rest =>
    if k = key then (k, v) :: rest else (k, v0) :: dictSet key v rest

/-- Builder creation in `main` (lines 176–183): the loop runs over the
literal tuple `("text",)` — the `args.json_keys` loop is commented out —
so exactly one builder is created, under key `"text"`, whatever the
configured key list is. -/
def makeBuilders : List (String × Builder) :=
  [("text", Builder.empty)]

/-- The per-result body of the driver loop (lines 195–199): for each
`(key, sentences)` of the encoded result, `add_item` every sentence into
`builders[key]` and then call `end_document()` once; a missing key raises
KeyError. -/
def addDoc (builders : List (String × Builder)) :
    List (String × List (List Nat)) → Except String (List (String × Builder))
  | [] => .ok builders
  | (key, sentences) :: rest =>
    match dictGet key builders with
    | none => .error "KeyError"
    | some b =>
      let b := { b with
        items := b.items ++ sentences,
        endDocCalls := b.endDocCalls + 1 }
      addDoc (dictSet key b builders) rest

/-- One iteration of the consuming loop of `main` (lines 189–199), with
the semaphore count threaded explicitly: the loop body releases the
semaphore first (line 192) and only then feeds the builders, so the
semaphore value carried out on the error path (an exception escaping the
iteration) is the already-incremented one. The byte accounting and
progress logging do not touch the semaphore or the builders and are
omitted. -/
def consumeResult (builders : List (String × Builder)) (sem : Nat)
    (result : List (String × List (List Nat)) × Nat) :
    Except (String × Nat) (List (String × Builder) × Nat) :=
  let sem := sem + 1
  match addDoc builders result.1 with
  | .error e => .error (e, sem)
  | .ok bs => .ok (bs, sem)

/-- The semaphore count at the point control leaves one iteration of the
consuming loop, on either the normal or the exceptional path. -/
def semOut : Except (String × Nat) (List (String × Builder) × Nat) → Nat
  | .error (_, s) => s
  | .ok (_, s) => s

/-- The finalization loop of `main` (lines 213–214): `for key in
args.json_keys: builders[key].finalize(...)`; a key without a builder
raises KeyError. -/
def finalizeAll (builders : List (String × Builder)) :
    List String → Except String (List (String × Builder))
  | [] => .ok builders
  | key :: rest =>
    match dictGet key builders with
    | none => .error "KeyError"
    | some b =>
      finalizeAll (dictSet key { b with finalizeCalls := b.finalizeCalls + 1 } builders) rest

/-- The consuming loop of `main` (lines 189–199) over the ordered stream
of documents: encode the next document (in order — `pool.imap` is
order-preserving, and the single-worker generator is trivially so) and
feed the result to the builders. Exceptions from either stage propagate.
The semaphore is analysed separately (`FlowStep`, `consumeResult`); it
does not affect which values reach the builders. -/
def driveLoop (cfg : Config) (fix_text : String → String) (tok : Tokenizer)
    (builders : List (String × Builder)) :
    List String → Except String (List (String × Builder))
  | [] => .ok builders
  | doc :: rest => do
    let r ← encode cfg fix_text tok doc
    let bs ← addDoc builders r.1
    driveLoop cfg fix_text tok bs rest

/-- The driver portion of `main`: create the builders, drain the encoded
stream into them, then run the finalization loop. -/
def mainDrive (cfg : Config) (fix_text : String → String) (tok : Tokenizer)
    (docs : List String) : Except String (List (String × Builder)) := do
  let builders ← driveLoop cfg fix_text tok makeBuilders docs
  finalizeAll builders cfg.json_keys

/-- The token sequences an encoded result carries for `key` (empty when
the key is absent). -/
def seqsFor (key : String) (r : List (String × List (List Nat)) × Nat) :
    List (List Nat) :=
  (dictGet key r.1).getD []

/-! ## Helper lemmas -/

/-- A token-sequence list produced by one key of `encode` has at most one
element: `doc_ids` starts empty and receives at most one `append`. -/
theorem encodeKey_ok_len {tok : Tokenizer} {aeod : Bool} {text : String}
    {ds : List (List Nat)} (h : encodeKey tok aeod text = .ok ds) :
    ds.length ≤ 1 := by
  unfold encodeKey at h
  cases hT : tok.tokenize text with
  | nil =>
    rw [hT] at h
    cases aeod with
    | false => simp at h; subst h; simp
    | true => simp at h
  | cons a as =>
    rw [hT] at h
    cases aeod with
    | false => simp at h; subst h; simp
    | true => simp at h; subst h; simp

/-- When tokenization is non-empty and end-of-document marking is on,
one key of `encode` yields exactly the tokenizer output with `eod`
appended. -/
theorem encodeKey_eod {tok : Tokenizer} {text : String}
    (h : tok.tokenize text ≠ []) :
    encodeKey tok true text = .ok [tok.tokenize text ++ [tok.eod]] := by
  have hl : 0 < (tok.tokenize text).length := List.length_pos.mpr h
  simp [encodeKey, hl]

/-- Every entry of the `ids` dict built by the key loop carries the result
of `encodeKey` on the same text. -/
theorem encodeIds_mem {tok : Tokenizer} {aeod : Bool} {keys : List String}
    {text : String} {ids : List (String × List (List Nat))}
    (h : encodeIds tok aeod keys text = .ok ids) :
    ∀ key ds, (key, ds) ∈ ids → encodeKey tok aeod text = .ok ds := by
  induction keys generalizing ids with
  | nil =>
    intro key ds hmem
    simp [encodeIds] at h
    subst h
    simp at hmem
  | cons k ks ih =>
    intro key ds hmem
    cases hE : encodeKey tok aeod text with
    | error e =>
      simp [encodeIds, hE, Bind.bind, Except.bind, Functor.map, Except.map] at h
    | ok v =>
      cases hR : encodeIds tok aeod ks text with
      | error e =>
        simp [encodeIds, hE, hR, Bind.bind, Except.bind, Functor.map,
          Except.map] at h
      | ok tail =>
        simp [encodeIds, hE, hR, Bind.bind, Except.bind, Functor.map,
          Except.map, pure, Except.pure] at h
        subst h
        rcases List.mem_cons.mp hmem with heq | htail
        · cases heq; rfl
        · rw [← hE]; exact ih hR key ds htail

/-- With the single key `"text"`, the `ids` dict is a single entry. -/
theorem encodeIds_single {tok : Tokenizer} {aeod : Bool} {text : String}
    {ids : List (String × List (List Nat))}
    (h : encodeIds tok aeod ["text"] text = .ok ids) :
    ∃ ds, ids = [("text", ds)] ∧ encodeKey tok aeod text = .ok ds := by
  cases hE : encodeKey tok aeod text with
  | error e =>
    simp [encodeIds, hE, Bind.bind, Except.bind, Functor.map, Except.map] at h
  | ok v =>
    refine ⟨v, ?_, rfl⟩
    simp [encodeIds, hE, Bind.bind, Except.bind, Functor.map, Except.map,
      pure, Except.pure] at h
    exact h.symm

/-- Decomposition of a successful `encode`: the `ids` dict comes from the
key loop on the post-repair text, and the returned count is `len(text)`
of that same post-repair text. -/
theorem encode_ok_parts {cfg : Config} {fix_text : String → String}
    {tok : Tokenizer} {text : String}
    {ids : List (String × List (List Nat))} {n : Nat}
    (h : encode cfg fix_text tok text = .ok (ids, n)) :
    encodeIds tok cfg.append_eod cfg.json_keys
      (if cfg.ftfy then fix_text text else text) = .ok ids ∧
    n = (if cfg.ftfy then fix_text text else text).length := by
  cases hI : encodeIds tok cfg.append_eod cfg.json_keys
      (if cfg.ftfy then fix_text text else text) with
  | error e => simp [encode, hI, Bind.bind, Except.bind] at h
  | ok ids0 =>
    simp [encode, hI, Bind.bind, Except.bind, pure, Except.pure] at h
    exact ⟨by rw [h.1], h.2.symm⟩

/-- Invariant of the permit pool: available permits plus documents in
flight always total the initial capacity. -/
theorem flowReachable_sum {W : Nat} {s : FlowState}
    (h : FlowReachable W s) :
    s.permits + s.inflight = BASE_BUFFER + W := by
  induction h with
  | init => rfl
  | step hr hst ih =>
    cases hst with
    | acquire p i hp => simp at ih ⊢; omega
    | release p i hi => simp at ih ⊢; omega

/-- The three sequential replacements of `sanitize` act on each character
exactly as the per-character description `sanitizeCharSpec`: the sentinel
written by an earlier replacement is never hit by a later one. -/
theorem sanitize_char_pointwise (c : Char) :
    (if (if (if c = '\n' then NEWLINE_TOKEN else c) = '\t' then TAB_TOKEN
          else if c = '\n' then NEWLINE_TOKEN else c) = ' ' then SPACE_TOKEN
        else if (if c = '\n' then NEWLINE_TOKEN else c) = '\t' then TAB_TOKEN
          else if c = '\n' then NEWLINE_TOKEN else c) =
      sanitizeCharSpec c := by
  by_cases h1 : c = '\n'
  · subst h1; decide
  · by_cases h2 : c = '\t'
    · subst h2; decide
    · by_cases h3 : c = ' '
      · subst h3; decide
      · simp [sanitizeCharSpec, h1, h2, h3]

/-- Character-list form of `sanitize` versus the per-character
description. -/
theorem sanitize_data (s : String) :
    (sanitize s).data = s.data.map sanitizeCharSpec := by
  show replaceChar ' ' SPACE_TOKEN
      (replaceChar '\t' TAB_TOKEN
        (replaceChar '\n' NEWLINE_TOKEN s.data)) = _
  induction s.data with
  | nil => rfl
  | cons c l ih =>
    simp only [replaceChar, List.map] at ih ⊢
    exact congrArg₂ List.cons (sanitize_char_pointwise c) ih

/-- The value of `sanitizeCharSpec` is never one of the three replaced
whitespace characters. -/
theorem sanitizeCharSpec_not_ws (c : Char) :
    sanitizeCharSpec c ≠ ' ' ∧ sanitizeCharSpec c ≠ '\t' ∧
      sanitizeCharSpec c ≠ '\n' := by
  unfold sanitizeCharSpec
  by_cases h1 : c = '\n'
  · subst h1; decide
  · by_cases h2 : c = '\t'
    · subst h2; decide
    · by_cases h3 : c = ' '
      · subst h3; decide
      · simp [h1, h2, h3]

/-- Feeding a single-key encoded result to the single-entry builder dict:
one `add_item` run plus one `end_document`. -/
theorem addDoc_single (b : Builder) (seq : List (List Nat)) :
    addDoc [("text", b)] [("text", seq)] =
      .ok [("text", ⟨b.items ++ seq, b.endDocCalls + 1, b.finalizeCalls⟩)] := by
  simp [addDoc, dictGet, dictSet]

/-- Closed form of the driver loop for the single-key configuration: the
loop threads the `"text"` builder through every document, appending that
document's sequences and counting one `end_document` per document. -/
theorem driveLoop_single (cfg : Config) (fix_text : String → String)
    (tok : Tokenizer) (hkeys : cfg.json_keys = ["text"]) :
    ∀ (docs : List String) (b : Builder) (bs : List (String × Builder)),
      driveLoop cfg fix_text tok [("text", b)] docs = .ok bs →
      ∃ encoded, docs.mapM (encode cfg fix_text tok) = .ok encoded ∧
        bs = [("text", ⟨b.items ++ encoded.flatMap (seqsFor "text"),
          b.endDocCalls + encoded.length, b.finalizeCalls⟩)] := by
  intro docs
  induction docs with
  | nil =>
    intro b bs h
    simp [driveLoop] at h
    refine ⟨[], rfl, ?_⟩
    simp [← h]
  | cons d ds ih =>
    intro b bs h
    cases hE : encode cfg fix_text tok d with
    | error e => simp [driveLoop, hE, Bind.bind, Except.bind] at h
    | ok r =>
      obtain ⟨ids, n⟩ := r
      have hIds := (encode_ok_parts hE).1
      rw [hkeys] at hIds
      obtain ⟨seq, hids, hK⟩ := encodeIds_single hIds
      subst hids
      rw [driveLoop] at h
      simp only [hE, addDoc_single, Bind.bind, Except.bind] at h
      obtain ⟨encoded, hMap, hbs⟩ := ih _ bs h
      refine ⟨([("text", seq)], n) :: encoded, ?_, ?_⟩
      · rw [List.mapM_cons, hE, hMap]
        rfl
      · rw [hbs]
        simp [seqsFor, dictGet]
        omega

/-! ## Claims -/

/-- Claim C1 (code bug): for a document whose tokenization yields zero
tokens, `encode` is supposed to return normally with the key mapped to an
empty list whether end-of-document marking is on or off. With marking off
the code does exactly that (second conjunct), but with marking on the
unguarded `doc_ids[-1].append(...)` hits an empty `doc_ids` and raises
IndexError instead of returning (first conjunct). -/
theorem encode_zero_tokens_append_eod_raises :
    encode ⟨["text"], true, false⟩ id ⟨fun _ => [], 0⟩ "nonempty document" =
      .error "IndexError: list index out of range" ∧
    encode ⟨["text"], false, false⟩ id ⟨fun _ => [], 0⟩ "nonempty document" =
      .ok ([("text", [])], 17) :=
  ⟨rfl, rfl⟩

/-- Claim C2 (counterexample): the builder-creation loop of `main` runs
over the literal `("text",)`, not over the configured key list, so with
configured keys `["text", "meta"]` only one builder exists and the
finalization loop raises KeyError — even on an empty document stream —
instead of creating and finalizing one builder per configured key. -/
theorem main_builders_not_per_key_cex :
    makeBuilders = [("text", Builder.empty)] ∧
    mainDrive ⟨["text", "meta"], false, false⟩ id ⟨fun _ => [1], 0⟩ [] =
      .error "KeyError" :=
  ⟨rfl, rfl⟩

/-- Claim C2 (amended): the driver creates exactly one builder, keyed
`"text"`, regardless of configuration; when the configured key list is
exactly `["text"]`, every successful run routes each encoded result's
`"text"` token sequences to that builder in stream order, records one
`end_document` per document, and finalizes the builder exactly once. -/
theorem main_single_key_builders (cfg : Config) (fix_text : String → String)
    (tok : Tokenizer) (docs : List String) (bs : List (String × Builder))
    (hkeys : cfg.json_keys = ["text"])
    (h : mainDrive cfg fix_text tok docs = .ok bs) :
    ∃ encoded, docs.mapM (encode cfg fix_text tok) = .ok encoded ∧
      bs = [("text", ⟨encoded.flatMap (seqsFor "text"), encoded.length, 1⟩)] := by
  cases hD : driveLoop cfg fix_text tok makeBuilders docs with
  | error e => simp [mainDrive, hD, Bind.bind, Except.bind] at h
  | ok bs1 =>
    simp only [mainDrive, hD, Bind.bind, Except.bind] at h
    obtain ⟨encoded, hMap, hbs1⟩ :=
      driveLoop_single cfg fix_text tok hkeys docs Builder.empty bs1 hD
    refine ⟨encoded, hMap, ?_⟩
    subst hbs1
    rw [hkeys] at h
    simp [finalizeAll, dictGet, dictSet, Builder.empty] at h
    simp [← h]

/-- Witness for C2 (amended) at a concrete two-document run. -/
theorem main_single_key_builders_witness :
    ∃ encoded,
      ["a", "b"].mapM (encode ⟨["text"], false, false⟩ id ⟨fun _ => [1], 0⟩) =
        .ok encoded ∧
      [("text", (⟨[[1], [1]], 2, 1⟩ : Builder))] =
        [("text", ⟨encoded.flatMap (seqsFor "text"), encoded.length, 1⟩)] :=
  main_single_key_builders ⟨["text"], false, false⟩ id ⟨fun _ => [1], 0⟩
    ["a", "b"] [("text", ⟨[[1], [1]], 2, 1⟩)] rfl rfl

/-- Claim C3 (counterexample): `encode` returns `len(text)`, the number of
code points, not the byte length of the original input: on the one-char,
two-byte document `"é"` it returns 1 while the byte length is 2. -/
theorem encode_length_not_bytes_cex :
    encode ⟨["text"], false, false⟩ id ⟨fun _ => [1], 0⟩ "é" =
      .ok ([("text", [[1]])], 1) ∧
    "é".utf8ByteSize = 2 ∧ (1 : Nat) ≠ 2 :=
  ⟨rfl, rfl, by decide⟩

/-- Claim C3 (amended): the second component of a successful `encode` is
the character (code-point) count of the text that was tokenized — the
repaired text when text repair is enabled, the original otherwise — not
the byte length of the original input. -/
theorem encode_returns_post_repair_char_count (cfg : Config)
    (fix_text : String → String) (tok : Tokenizer) (text : String)
    (r : List (String × List (List Nat)) × Nat)
    (h : encode cfg fix_text tok text = .ok r) :
    r.2 = (if cfg.ftfy then fix_text text else text).length := by
  obtain ⟨ids, n⟩ := r
  exact (encode_ok_parts h).2

/-- Witness for C3 (amended) on the document `"é"`. -/
theorem encode_returns_post_repair_char_count_witness :
    (([("text", [[1]])], 1) : List (String × List (List Nat)) × Nat).2 =
      (if (⟨["text"], false, false⟩ : Config).ftfy then id "é" else "é").length :=
  encode_returns_post_repair_char_count ⟨["text"], false, false⟩ id
    ⟨fun _ => [1], 0⟩ "é" ([("text", [[1]])], 1) rfl

/-- Claim C4: in every reachable state of the permit pool with worker
count `W`, the number of documents in flight (acquired by the source and
not yet released by the driver) never exceeds `BASE_BUFFER + W`, the
initial capacity of `Semaphore(10000 + args.workers)`. -/
theorem flow_inflight_bounded (W : Nat) (s : FlowState)
    (h : FlowReachable W s) : s.inflight ≤ BASE_BUFFER + W := by
  have hsum := flowReachable_sum h
  omega

/-- Witness for C4: the state after one acquisition from the initial
state with 4 workers. -/
theorem flow_inflight_bounded_witness :
    FlowState.inflight ⟨10003, 1⟩ ≤ BASE_BUFFER + 4 :=
  flow_inflight_bounded 4 ⟨10003, 1⟩
    (FlowReachable.step FlowReachable.init
      (FlowStep.acquire 10004 0 (by decide)))

/-- Claim C5: one iteration of the consuming loop releases exactly one
permit on every exit path — the semaphore count carried out of the step
is the incremented one whether the builder feeding succeeds or raises —
because `semaphore.release()` is executed before any fallible builder
operation. -/
theorem consume_releases_on_all_paths (builders : List (String × Builder))
    (sem : Nat) (result : List (String × List (List Nat)) × Nat) :
    semOut (consumeResult builders sem result) = sem + 1 := by
  unfold consumeResult
  cases addDoc builders result.1 <;> rfl

/-- Claim C6 (counterexample): a file whose `open` raises is not skipped:
the whole enumeration aborts with the error, and the remaining readable
file — which alone would be yielded (second conjunct) — is never
reached. -/
theorem source_open_failure_cex :
    yield_from_files [none, some "ab"] = .error "OSError" ∧
    yield_from_files [some "ab"] =
      .ok [SourceEvent.acquire, SourceEvent.yieldDoc "ab"] :=
  ⟨rfl, rfl⟩

/-- Claim C6 (amended): there is no per-file error recovery in the
document source: an unopenable file always terminates the whole
enumeration with the propagated error, whatever files remain; only decode
problems are tolerated, because `errors="ignore"` makes reading a
readable file total (it always returns the sanitized decoded content,
never an exception). -/
theorem source_open_failure_aborts (rest : List (Option String)) :
    yield_from_files (none :: rest) = .error "OSError" ∧
    ∀ c : String, readDoc (some c) = .ok (sanitize c) := by
  exact ⟨rfl, fun c => rfl⟩

/-- Claim C7: when end-of-document marking is enabled and tokenization of
the (post-repair) document text is non-empty, the last token sequence
`encode` returns for every configured key is the tokenizer output with
the tokenizer's end-of-document id appended. -/
theorem encode_appends_eod (cfg : Config) (fix_text : String → String)
    (tok : Tokenizer) (text : String)
    (ids : List (String × List (List Nat))) (n : Nat)
    (key : String) (ds : List (List Nat))
    (heod : cfg.append_eod = true)
    (hok : encode cfg fix_text tok text = .ok (ids, n))
    (hmem : (key, ds) ∈ ids)
    (hne : tok.tokenize (if cfg.ftfy then fix_text text else text) ≠ []) :
    ds.getLast? = some
      (tok.tokenize (if cfg.ftfy then fix_text text else text) ++ [tok.eod]) := by
  have hK := encodeIds_mem (encode_ok_parts hok).1 key ds hmem
  rw [heod, encodeKey_eod hne] at hK
  cases hK
  rfl

/-- Witness for C7 on a one-key configuration with tokenizer output `[5]`
and end-of-document id `9`. -/
theorem encode_appends_eod_witness :
    ([[5, 9]] : List (List Nat)).getLast? = some ([5] ++ [9]) :=
  encode_appends_eod ⟨["text"], true, false⟩ id ⟨fun _ => [5], 9⟩ "x"
    [("text", [[5, 9]])] 1 "text" [[5, 9]] rfl rfl (List.Mem.head _)
    (by decide)

/-- Claim C8: a file whose content is empty after normalization makes the
source produce no event at all (no permit acquisition, no yielded
document), and every document the source does yield is non-empty and is
the normalization of some input file's content. -/
theorem source_skips_empty :
    (∀ c : String, sanitize c = "" → yielder (some c) = .ok []) ∧
    (∀ (files : List (Option String)) (evs : List SourceEvent) (d : String),
      yield_from_files files = .ok evs → SourceEvent.yieldDoc d ∈ evs →
      d ≠ "" ∧ ∃ c : String, some c ∈ files ∧ d = sanitize c) := by
  constructor
  · intro c hc
    simp [yielder, readDoc, Bind.bind, Except.bind, pure, Except.pure, hc]
  · intro files
    induction files with
    | nil =>
      intro evs d h hmem
      simp [yield_from_files] at h
      subst h
      simp at hmem
    | cons file rest ih =>
      intro evs d h hmem
      cases hY : yielder file with
      | error e =>
        simp [yield_from_files, hY, Bind.bind, Except.bind] at h
      | ok evs1 =>
        cases hR : yield_from_files rest with
        | error e =>
          simp [yield_from_files, hY, hR, Bind.bind, Except.bind] at h
        | ok evs2 =>
          simp [yield_from_files, hY, hR, Bind.bind, Except.bind, pure,
            Except.pure] at h
          subst h
          rcases List.mem_append.mp hmem with h1 | h2
          · cases file with
            | none => simp [yielder, readDoc, Bind.bind, Except.bind] at hY
            | some c =>
              by_cases hc : sanitize c = ""
              · simp [yielder, readDoc, Bind.bind, Except.bind, pure,
                  Except.pure, hc] at hY
                subst hY
                simp at h1
              · simp [yielder, readDoc, Bind.bind, Except.bind, pure,
                  Except.pure, hc] at hY
                subst hY
                simp at h1
                subst h1
                exact ⟨hc, c, List.Mem.head _, rfl⟩
          · obtain ⟨hd, c, hcmem, hceq⟩ := ih evs2 d hR h2
            exact ⟨hd, c, List.Mem.tail _ hcmem, hceq⟩

/-- Witness for C8: the empty file yields nothing; the yielded document
of the one-file run on `"a b"` is non-empty and normalized. -/
theorem source_skips_empty_witness :
    yielder (some "") = .ok [] ∧
    ("a▁b" ≠ "" ∧ ∃ c : String, some c ∈ [some "a b"] ∧ "a▁b" = sanitize c) :=
  ⟨source_skips_empty.1 "" rfl,
   source_skips_empty.2 [some "a b"]
     [SourceEvent.acquire, SourceEvent.yieldDoc "a▁b"] "a▁b" rfl
     (by decide)⟩

/-- Claim C9: `sanitize` acts characterwise — newline, tab and space are
each replaced by their own distinct sentinel and every other character is
left unchanged — and its output therefore contains no space, tab or
newline. -/
theorem sanitize_replaces_whitespace (s : String) :
    (sanitize s).data = s.data.map sanitizeCharSpec ∧
    (∀ c : Char, c ∈ (sanitize s).data →
      c ≠ ' ' ∧ c ≠ '\t' ∧ c ≠ '\n') ∧
    NEWLINE_TOKEN ≠ TAB_TOKEN ∧ NEWLINE_TOKEN ≠ SPACE_TOKEN ∧
      TAB_TOKEN ≠ SPACE_TOKEN := by
  refine ⟨sanitize_data s, ?_, by decide, by decide, by decide⟩
  intro c hc
  rw [sanitize_data s] at hc
  obtain ⟨x, hx, rfl⟩ := List.mem_map.mp hc
  exact sanitizeCharSpec_not_ws x

/-- Witness for C9 on the string `"a b"`. -/
theorem sanitize_replaces_whitespace_witness :
    (sanitize "a b").data = "a b".data.map sanitizeCharSpec ∧
    ('▁' ≠ ' ' ∧ '▁' ≠ '\t' ∧ '▁' ≠ '\n') :=
  ⟨(sanitize_replaces_whitespace "a b").1,
   (sanitize_replaces_whitespace "a b").2.1 '▁' (by decide)⟩

/-- Claim C10: for every successfully encoded document and every entry of
the returned per-key map, the list of token sequences has length at most
one — a document contributes zero or one sequence per key, never more. -/
theorem encode_at_most_one_seq (cfg : Config) (fix_text : String → String)
    (tok : Tokenizer) (text : String)
    (ids : List (String × List (List Nat))) (n : Nat)
    (key : String) (ds : List (List Nat))
    (hok : encode cfg fix_text tok text = .ok (ids, n))
    (hmem : (key, ds) ∈ ids) : ds.length ≤ 1 :=
  encodeKey_ok_len (encodeIds_mem (encode_ok_parts hok).1 key ds hmem)

/-- Witness for C10 on a concrete encoded document. -/
theorem encode_at_most_one_seq_witness :
    ([[2, 7]] : List (List Nat)).length ≤ 1 :=
  encode_at_most_one_seq ⟨["text"], true, false⟩ id ⟨fun _ => [2], 7⟩ "ab"
    [("text", [[2, 7]])] 2 "text" [[2, 7]] rfl (List.Mem.head _)

